import Mathlib

/-!
Verification of a Lamport logical-clock server (Go implementation).

The Go source keeps a single `int64` counter inside `LamportClock`
(`Tick`, `Update`, `GetTime`), and a `Server` that appends immutable
`Event` records to a log (`logEvent`, `processMessage`) and exposes
HTTP handlers (`handleReceiveMessage`, `handleGetEvents`).

Go `int64` arithmetic wraps around at 2^63 - 1, so the counter is
modelled as an `Int` together with an explicit wrap `wrap64` applied
exactly where the Go code performs `timestamp++`.
-/

namespace Lamport

/-- Smallest value of Go's `int64`. -/
def int64Min : Int := -9223372036854775808

/-- Largest value of Go's `int64`. -/
def int64Max : Int := 9223372036854775807

/-- Two's-complement wraparound of an integer into the `int64` range,
as performed by Go's `int64` increment. -/
def wrap64 (x : Int) : Int :=
  (x + 9223372036854775808) % 18446744073709551616 - 9223372036854775808

/-- The predicate "x is a representable `int64` value". -/
def IsInt64 (x : Int) : Prop := int64Min ≤ x ∧ x ≤ int64Max

instance (x : Int) : Decidable (IsInt64 x) := by
  unfold IsInt64; infer_instance

/-- `NewLamportClock` initializes the timestamp to 0 (main.go lines 20-24). -/
def NewLamportClock : Int := 0

/-- `Tick` (main.go lines 27-33): `lc.timestamp++; return lc.timestamp`,
with the increment wrapping as Go `int64` addition does.
The returned value is the new stored timestamp. -/
def Tick (ts : Int) : Int := wrap64 (ts + 1)

/-- `Update` (main.go lines 37-46): if `receivedTimestamp > lc.timestamp`
then `lc.timestamp = receivedTimestamp`; then `lc.timestamp++` (wrapping);
returns the new stored timestamp. -/
def Update (received ts : Int) : Int :=
  wrap64 ((if received > ts then received else ts) + 1)

/-- `GetTime` (main.go lines 49-53): returns the current timestamp
without mutating it. -/
def GetTime (ts : Int) : Int := ts

/-- One operation on the bare clock: a local tick or a merge with a
received timestamp. -/
inductive ClockOp where
  | tick : ClockOp
  | update (received : Int) : ClockOp
deriving DecidableEq, Repr

/-- Effect of one clock operation on the stored timestamp. -/
def clockStep (ts : Int) : ClockOp → Int
  | .tick => Tick ts
  | .update r => Update r ts

/-- Run a list of clock operations; returns the final stored timestamp
and the list of values returned by the calls, in call order.
Each call returns the new stored timestamp. -/
def clockRun : Int → List ClockOp → Int × List Int
  | ts, [] => (ts, [])
  | ts, op :: ops =>
    ((clockRun (clockStep ts op) ops).1,
      clockStep ts op :: (clockRun (clockStep ts op) ops).2)

/-- A clock operation is overflow-safe at state `ts` when the value the
Go code increments is strictly below `int64Max` (so `++` does not wrap)
and any received value is a representable `int64`. -/
def clockOpSafe (ts : Int) : ClockOp → Bool
  | .tick => decide (ts < int64Max)
  | .update r =>
      decide (int64Min ≤ r ∧ (if r > ts then r else ts) < int64Max)

/-- A whole run is overflow-safe when every step is safe at the state
it executes in. -/
def clockRunSafe : Int → List ClockOp → Bool
  | _, [] => true
  | ts, op :: ops => clockOpSafe ts op && clockRunSafe (clockStep ts op) ops

/-! Decimal rendering of integers, as `fmt.Sprintf("msg-%d", t)` does. -/

/-- Base-10 digits of `n`, least significant first, with explicit fuel
(`fuel ≥ n` suffices); empty for `n = 0`. -/
def natDigitsRev : Nat → Nat → List Nat
  | 0, _ => []
  | fuel + 1, n => if n = 0 then [] else n % 10 :: natDigitsRev fuel (n / 10)

/-- The ASCII character of a decimal digit. -/
def decChar (d : Nat) : Char := Char.ofNat (48 + d)

/-- Decimal string of a natural number, as Go's `%d` renders it. -/
def natDecimal (n : Nat) : String :=
  if n = 0 then "0" else ⟨(natDigitsRev n n).reverse.map decChar⟩

/-- Decimal string of an integer, as Go's `%d` renders an `int64`. -/
def intDecimal (i : Int) : String :=
  if i < 0 then "-" ++ natDecimal i.natAbs else natDecimal i.toNat

/-- Value of a least-significant-first digit list. -/
def ofDigitsRev : List Nat → Nat
  | [] => 0
  | d :: ds => d + 10 * ofDigitsRev ds

/-! The event log and the server (main.go lines 55-116). -/

/-- `Event` (main.go lines 56-61). Wall time is informational only and
is supplied by the environment; it is modelled as an opaque `Nat`. -/
structure Event where
  ID : String
  Message : String
  Timestamp : Int
  WallTime : Nat
deriving DecidableEq, Repr

/-- `Server` (main.go lines 64-68): the clock's timestamp and the
append-only event log. -/
structure Server where
  clock : Int
  events : List Event
deriving DecidableEq, Repr

/-- `NewServer` (main.go lines 71-76): fresh clock at 0, empty log. -/
def NewServer : Server := ⟨NewLamportClock, []⟩

/-- `logEvent` (main.go lines 79-95): tick the clock, build the event,
append it, return it. -/
def logEvent (s : Server) (id message : String) (wall : Nat) :
    Event × Server :=
  (⟨id, message, Tick s.clock, wall⟩,
    ⟨Tick s.clock, s.events ++ [⟨id, message, Tick s.clock, wall⟩]⟩)

/-- The synthetic id `fmt.Sprintf("msg-%d", newTimestamp)` used by
`processMessage` (main.go line 103). -/
def msgId (t : Int) : String := "msg-" ++ intDecimal t

/-- `processMessage` (main.go lines 98-116): merge the received
timestamp into the clock, build the event with the synthetic id and the
"Processed: " label, append it, return it. -/
def processMessage (s : Server) (received : Int) (message : String)
    (wall : Nat) : Event × Server :=
  (⟨msgId (Update received s.clock), "Processed: " ++ message,
      Update received s.clock, wall⟩,
    ⟨Update received s.clock,
      s.events ++ [⟨msgId (Update received s.clock),
        "Processed: " ++ message, Update received s.clock, wall⟩]⟩)

/-- One recorder operation: a local event (`logEvent`, driven by
`handleCreateEvent`) or a received message (`processMessage`). -/
inductive ServerOp where
  | localOp (id message : String) (wall : Nat) : ServerOp
  | messageOp (received : Int) (message : String) (wall : Nat) : ServerOp
deriving DecidableEq, Repr

/-- The clock operation a recorder operation performs. -/
def ServerOp.clockOp : ServerOp → ClockOp
  | .localOp _ _ _ => .tick
  | .messageOp r _ _ => .update r

/-- Effect of one recorder operation: the produced event and the new
server state. -/
def serverStep (s : Server) : ServerOp → Event × Server
  | .localOp id m w => logEvent s id m w
  | .messageOp r m w => processMessage s r m w

/-- Run a list of recorder operations, returning the final server. -/
def serverRun : Server → List ServerOp → Server
  | s, [] => s
  | s, op :: ops => serverRun (serverStep s op).2 ops

/-- Overflow-safety of one recorder operation at a server state. -/
def serverOpSafe (s : Server) (op : ServerOp) : Bool :=
  clockOpSafe s.clock op.clockOp

/-- Overflow-safety of a whole recorder run. -/
def serverRunSafe : Server → List ServerOp → Bool
  | _, [] => true
  | s, op :: ops => serverOpSafe s op && serverRunSafe (serverStep s op).2 ops

/-- The events returned by the `processMessage` calls of a run, in call
order. -/
def msgEvents : Server → List ServerOp → List Event
  | _, [] => []
  | s, .localOp i m w :: ops => msgEvents (logEvent s i m w).2 ops
  | s, .messageOp r m w :: ops =>
      (processMessage s r m w).1 :: msgEvents (processMessage s r m w).2 ops

/-! HTTP handlers (main.go lines 138-181). -/

/-- Outcome of an HTTP handler call, as visible to the client. -/
inductive HandlerResult where
  | methodNotAllowed : HandlerResult
  | badRequest (reason : String) : HandlerResult
  | okEvent (e : Event) : HandlerResult
deriving DecidableEq, Repr

/-- `strconv.ParseInt(s, 10, 64)` as used by `handleReceiveMessage`:
an optional sign followed by at least one ASCII digit, the value within
the `int64` range; anything else is a parse error (`none`). -/
def parseInt64 (s : String) : Option Int :=
  match s.data with
  | [] => none
  | c :: rest =>
    let (neg, ds) :=
      if c = '-' then (true, rest)
      else if c = '+' then (false, rest)
      else (false, c :: rest)
    if ds = [] then none
    else if ds.all Char.isDigit then
      let n : Nat := ds.foldl (fun a ch => a * 10 + (ch.toNat - 48)) 0
      let v : Int := if neg then -(n : Int) else (n : Int)
      if IsInt64 v then some v else none
    else none

/-- `handleReceiveMessage` (main.go lines 138-162): non-POST is
rejected with 405; a missing (empty) timestamp or message parameter is
rejected with 400; an unparseable timestamp is rejected with 400;
otherwise the message is processed and the event returned.  The second
component is the server state after the call. -/
def handleReceiveMessage (s : Server) (method timestampStr message : String)
    (wall : Nat) : HandlerResult × Server :=
  if method ≠ "POST" then (.methodNotAllowed, s)
  else if timestampStr = "" ∨ message = "" then
    (.badRequest "Missing timestamp or message parameter", s)
  else
    match parseInt64 timestampStr with
    | none => (.badRequest "Invalid timestamp", s)
    | some t => ((.okEvent (processMessage s t message wall).1),
        (processMessage s t message wall).2)

/-- `handleGetEvents` (main.go lines 164-181): returns the current
clock value, a copy of the event log in append order, and its length. -/
def handleGetEvents (s : Server) : Int × List Event × Nat :=
  (GetTime s.clock, s.events, s.events.length)

/-- Decoding of a decimal character list back to a natural number;
used to show the rendering is injective. -/
def decodeDigits (l : List Char) : Nat :=
  ofDigitsRev ((l.map (fun c => c.toNat - 48)).reverse)

/-- A concurrent execution of `Tick` calls: every interleaving of the
callers is a schedule, a list naming which of the `N` callers performs
each mutex-protected (hence atomic) tick.  Returns the final stored
timestamp and the values returned to the callers, in schedule order. -/
def tickSchedule {N : Nat} : Int → List (Fin N) → Int × List Int
  | ts, [] => (ts, [])
  | ts, _ :: rest =>
    ((tickSchedule (Tick ts) rest).1, Tick ts :: (tickSchedule (Tick ts) rest).2)

/-! Lemmas and claim theorems. -/

/-- `wrap64` is the identity on representable `int64` values. -/
lemma wrap64_eq_self {x : Int} (h1 : int64Min ≤ x) (h2 : x ≤ int64Max) :
    wrap64 x = x := by
  simp only [wrap64, int64Min, int64Max] at *
  omega

/-- `wrap64` always lands in the `int64` range. -/
lemma wrap64_bounds (x : Int) : int64Min ≤ wrap64 x ∧ wrap64 x ≤ int64Max := by
  simp only [wrap64, int64Min, int64Max]
  omega

/-- A safe clock step strictly increases the timestamp and keeps it in
the `int64` range. -/
lemma clockStep_bounds (ts : Int) (op : ClockOp) (h : int64Min ≤ ts)
    (hs : clockOpSafe ts op = true) :
    ts < clockStep ts op ∧ int64Min ≤ clockStep ts op ∧
      clockStep ts op ≤ int64Max := by
  cases op with
  | tick =>
    have hlt : ts < int64Max := by
      simpa [clockOpSafe] using hs
    have he : wrap64 (ts + 1) = ts + 1 :=
      wrap64_eq_self (by omega) (by omega)
    simp only [clockStep, Tick, he]
    omega
  | update r =>
    have hr : int64Min ≤ r ∧ (if r > ts then r else ts) < int64Max := by
      simpa [clockOpSafe] using hs
    have hm1 : int64Min ≤ (if r > ts then r else ts) + 1 := by
      split <;> omega
    have hm2 : (if r > ts then r else ts) + 1 ≤ int64Max := by
      omega
    have he : wrap64 ((if r > ts then r else ts) + 1)
        = (if r > ts then r else ts) + 1 := wrap64_eq_self hm1 hm2
    simp only [clockStep, Update, he]
    split <;> omega

/-- Safe runs yield a strictly increasing chain of returned values
(each strictly above the starting state and above all earlier returns),
and the final stored timestamp is the last returned value. -/
lemma clockRun_spec :
    ∀ (ops : List ClockOp) (ts : Int), int64Min ≤ ts →
      clockRunSafe ts ops = true →
      List.Pairwise (· < ·) (ts :: (clockRun ts ops).2) ∧
        (clockRun ts ops).1 = ((clockRun ts ops).2).getLastD ts := by
  intro ops
  induction ops with
  | nil =>
    intro ts _ _
    simp [clockRun]
  | cons op rest ih =>
    intro ts h hs
    rw [clockRunSafe, Bool.and_eq_true] at hs
    obtain ⟨hs1, hs2⟩ := hs
    obtain ⟨hlt, hmin, _⟩ := clockStep_bounds ts op h hs1
    obtain ⟨ihp, ihf⟩ := ih (clockStep ts op) hmin hs2
    refine ⟨?_, ?_⟩
    · simp only [clockRun]
      refine List.pairwise_cons.mpr ⟨?_, ihp⟩
      intro x hx
      rcases List.mem_cons.mp hx with hx | hx
      · exact hx ▸ hlt
      · exact lt_trans hlt ((List.pairwise_cons.mp ihp).1 x hx)
    · simp only [clockRun, List.getLastD_cons]
      exact ihf

/-- A recorder step appends exactly the produced event to the log. -/
lemma serverStep_events (s : Server) (op : ServerOp) :
    (serverStep s op).2.events = s.events ++ [(serverStep s op).1] := by
  cases op <;> rfl

/-- A recorder step advances the clock by the matching clock step. -/
lemma serverStep_clock (s : Server) (op : ServerOp) :
    (serverStep s op).2.clock = clockStep s.clock op.clockOp := by
  cases op <;> rfl

/-- The produced event carries the new clock value. -/
lemma serverStep_timestamp (s : Server) (op : ServerOp) :
    (serverStep s op).1.Timestamp = clockStep s.clock op.clockOp := by
  cases op <;> rfl

/-- A recorder run only ever appends to the log, never rewrites it. -/
lemma serverRun_appends :
    ∀ (ops : List ServerOp) (s : Server),
      ∃ tail, (serverRun s ops).events = s.events ++ tail := by
  intro ops
  induction ops with
  | nil => intro s; exact ⟨[], by simp [serverRun]⟩
  | cons op rest ih =>
    intro s
    obtain ⟨t, ht⟩ := ih (serverStep s op).2
    refine ⟨(serverStep s op).1 :: t, ?_⟩
    rw [serverRun, ht, serverStep_events]
    simp

/-- A safe recorder run appends a tail of events whose timestamps are
pairwise strictly increasing and all strictly above the starting clock. -/
lemma serverRun_log_spec :
    ∀ (ops : List ServerOp) (s : Server), int64Min ≤ s.clock →
      serverRunSafe s ops = true →
      ∃ tail, (serverRun s ops).events = s.events ++ tail ∧
        tail.Pairwise (fun a b => a.Timestamp < b.Timestamp) ∧
        ∀ e ∈ tail, s.clock < e.Timestamp := by
  intro ops
  induction ops with
  | nil => intro s _ _; exact ⟨[], by simp [serverRun]⟩
  | cons op rest ih =>
    intro s h hs
    rw [serverRunSafe, Bool.and_eq_true] at hs
    obtain ⟨hs1, hs2⟩ := hs
    have hb := clockStep_bounds s.clock op.clockOp h hs1
    obtain ⟨tail, htail, hpw, hgt⟩ :=
      ih (serverStep s op).2 (by rw [serverStep_clock]; exact hb.2.1) hs2
    refine ⟨(serverStep s op).1 :: tail, ?_, ?_, ?_⟩
    · rw [serverRun, htail, serverStep_events]
      simp
    · refine List.pairwise_cons.mpr ⟨?_, hpw⟩
      intro x hx
      have hx' := hgt x hx
      rw [serverStep_clock] at hx'
      rw [serverStep_timestamp]
      exact hx'
    · intro x hx
      rcases List.mem_cons.mp hx with hx | hx
      · rw [hx, serverStep_timestamp]
        exact hb.1
      · have hx' := hgt x hx
        rw [serverStep_clock] at hx'
        exact lt_trans hb.1 hx'

/-- In a safe run the events produced by `processMessage` calls have
pairwise strictly increasing timestamps, all strictly above the starting
clock, and each carries the synthetic id of its own timestamp. -/
lemma msgEvents_spec :
    ∀ (ops : List ServerOp) (s : Server), int64Min ≤ s.clock →
      serverRunSafe s ops = true →
      (msgEvents s ops).Pairwise (fun a b => a.Timestamp < b.Timestamp) ∧
        ∀ e ∈ msgEvents s ops,
          s.clock < e.Timestamp ∧ e.ID = msgId e.Timestamp := by
  intro ops
  induction ops with
  | nil => intro s _ _; simp [msgEvents]
  | cons op rest ih =>
    intro s h hs
    rw [serverRunSafe, Bool.and_eq_true] at hs
    obtain ⟨hs1, hs2⟩ := hs
    have hb := clockStep_bounds s.clock op.clockOp h hs1
    have hclock : (serverStep s op).2.clock = clockStep s.clock op.clockOp :=
      serverStep_clock s op
    obtain ⟨ihpw, ihmem⟩ :=
      ih (serverStep s op).2 (by rw [hclock]; exact hb.2.1) hs2
    cases op with
    | localOp i m w =>
      refine ⟨ihpw, ?_⟩
      intro e he
      obtain ⟨he1, he2⟩ := ihmem e he
      rw [hclock] at he1
      exact ⟨lt_trans hb.1 he1, he2⟩
    | messageOp r m w =>
      have hts : (processMessage s r m w).1.Timestamp
          = clockStep s.clock (ServerOp.messageOp r m w).clockOp := rfl
      constructor
      · rw [msgEvents]
        refine List.pairwise_cons.mpr ⟨?_, ihpw⟩
        intro x hx
        have hx' := (ihmem x hx).1
        rw [hclock] at hx'
        rw [hts]
        exact hx'
      · intro e he
        rw [msgEvents] at he
        rcases List.mem_cons.mp he with he | he
        · subst he
          exact ⟨hts ▸ hb.1, rfl⟩
        · obtain ⟨he1, he2⟩ := ihmem e he
          rw [hclock] at he1
          exact ⟨lt_trans hb.1 he1, he2⟩

/-- Every digit produced by `natDigitsRev` is below 10. -/
lemma natDigitsRev_lt :
    ∀ (fuel n d : Nat), d ∈ natDigitsRev fuel n → d < 10 := by
  intro fuel
  induction fuel with
  | zero => intro n d hd; simp [natDigitsRev] at hd
  | succ f ih =>
    intro n d hd
    by_cases hn : n = 0
    · simp [natDigitsRev, hn] at hd
    · rw [natDigitsRev, if_neg hn] at hd
      rcases List.mem_cons.mp hd with hd | hd
      · omega
      · exact ih _ _ hd

/-- `ofDigitsRev` recovers the number from its digit list. -/
lemma ofDigitsRev_natDigitsRev :
    ∀ (fuel n : Nat), n ≤ fuel → ofDigitsRev (natDigitsRev fuel n) = n := by
  intro fuel
  induction fuel with
  | zero =>
    intro n hn
    have : n = 0 := by omega
    subst this
    rfl
  | succ f ih =>
    intro n hn
    by_cases hn0 : n = 0
    · subst hn0; rfl
    · rw [natDigitsRev, if_neg hn0, ofDigitsRev, ih (n / 10) (by omega)]
      omega

/-- Decoding a digit character recovers the digit. -/
lemma decChar_decode (d : Nat) (hd : d < 10) : (decChar d).toNat - 48 = d := by
  interval_cases d <;> decide

/-- Decoding the character rendering of a digit list recovers it. -/
lemma decode_encode_list :
    ∀ l : List Nat, (∀ d ∈ l, d < 10) →
      (l.map decChar).map (fun c => c.toNat - 48) = l := by
  intro l
  induction l with
  | nil => intro _; rfl
  | cons d ds ih =>
    intro h
    simp only [List.map_cons]
    rw [decChar_decode d (h d (List.mem_cons_self d ds)),
      ih (fun x hx => h x (List.mem_cons_of_mem d hx))]

/-- `decodeDigits` is a left inverse of `natDecimal`. -/
lemma decode_natDecimal (n : Nat) : decodeDigits (natDecimal n).data = n := by
  by_cases hn : n = 0
  · subst hn; decide
  · rw [natDecimal, if_neg hn]
    show decodeDigits ((natDigitsRev n n).reverse.map decChar) = n
    rw [decodeDigits, List.map_reverse, List.map_reverse,
      List.reverse_reverse,
      decode_encode_list _ (fun d hd => natDigitsRev_lt n n d hd)]
    exact ofDigitsRev_natDigitsRev n n le_rfl

/-- The decimal rendering of natural numbers is injective. -/
lemma natDecimal_inj (m n : Nat) (h : natDecimal m = natDecimal n) : m = n := by
  have hm := decode_natDecimal m
  have hn := decode_natDecimal n
  rw [h, hn] at hm
  exact hm.symm

/-- String append is left-cancellative. -/
lemma string_append_left_cancel (p a b : String) (h : p ++ a = p ++ b) :
    a = b := by
  cases p with
  | mk dp =>
    cases a with
    | mk da =>
      cases b with
      | mk db =>
        have hd : dp ++ da = dp ++ db := congrArg String.data h
        exact congrArg String.mk (List.append_cancel_left hd)

/-- The synthetic message id is injective on positive timestamps. -/
lemma msgId_inj_pos {t1 t2 : Int} (h1 : 0 < t1) (h2 : 0 < t2)
    (h : msgId t1 = msgId t2) : t1 = t2 := by
  rw [msgId, msgId, intDecimal, intDecimal,
    if_neg (by omega : ¬ t1 < 0), if_neg (by omega : ¬ t2 < 0)] at h
  have h' := string_append_left_cancel _ _ _ h
  have h'' := natDecimal_inj _ _ h'
  omega

/-- Wrapping is stable under adding to an already wrapped value. -/
lemma wrap64_add_left (x y : Int) : wrap64 (wrap64 x + y) = wrap64 (x + y) := by
  simp only [wrap64]
  omega

/-- An overflow-free tick schedule returns pairwise distinct, strictly
increasing values, all above the starting state, and ends at the start
plus the number of ticks. -/
lemma tickSchedule_spec {N : Nat} :
    ∀ (sched : List (Fin N)) (ts : Int), int64Min ≤ ts →
      ts + sched.length ≤ int64Max →
      List.Pairwise (· < ·) (tickSchedule ts sched).2 ∧
        (∀ x ∈ (tickSchedule ts sched).2, ts < x) ∧
        (tickSchedule ts sched).1 = ts + sched.length ∧
        (tickSchedule ts sched).2.length = sched.length := by
  intro sched
  induction sched with
  | nil =>
    intro ts _ _
    simp [tickSchedule]
  | cons c rest ih =>
    intro ts h1 h2
    have hlen : ((c :: rest).length : Int) = (rest.length : Int) + 1 := by
      push_cast [List.length_cons]
      ring
    have hrest : (0 : Int) ≤ (rest.length : Int) := Int.natCast_nonneg _
    have htick : Tick ts = ts + 1 := by
      rw [Tick, wrap64_eq_self (by omega) (by rw [hlen] at h2; omega)]
    obtain ⟨ihpw, ihmem, ihfin, ihlen⟩ :=
      ih (Tick ts) (by rw [htick]; omega)
        (by rw [htick]; rw [hlen] at h2; omega)
    refine ⟨?_, ?_, ?_, ?_⟩
    · rw [tickSchedule]
      refine List.pairwise_cons.mpr ⟨?_, ihpw⟩
      intro x hx
      have := ihmem x hx
      omega
    · intro x hx
      rw [tickSchedule] at hx
      rcases List.mem_cons.mp hx with hx | hx
      · rw [hx, htick]; omega
      · have := ihmem x hx
        omega
    · rw [tickSchedule] at *
      rw [ihfin, htick, hlen]
      ring
    · rw [tickSchedule, List.length_cons, ihlen, List.length_cons]

/-- The final timestamp of any tick schedule, wraparound included. -/
lemma tickSchedule_final {N : Nat} :
    ∀ (sched : List (Fin N)) (ts : Int), int64Min ≤ ts → ts ≤ int64Max →
      (tickSchedule ts sched).1 = wrap64 (ts + sched.length) := by
  intro sched
  induction sched with
  | nil =>
    intro ts h1 h2
    simp [tickSchedule, wrap64_eq_self h1 h2]
  | cons c rest ih =>
    intro ts h1 h2
    have hb := wrap64_bounds (ts + 1)
    rw [tickSchedule]
    show (tickSchedule (Tick ts) rest).1 = _
    rw [ih (Tick ts) hb.1 hb.2, Tick, wrap64_add_left]
    congr 1
    push_cast [List.length_cons]
    ring

/-- The length of a list over `Fin N` is the sum of its element counts. -/
lemma length_eq_sum_count {N : Nat} :
    ∀ l : List (Fin N), (∑ i : Fin N, l.count i) = l.length := by
  intro l
  induction l with
  | nil => simp
  | cons a l ih =>
    simp only [List.count_cons, List.length_cons, Finset.sum_add_distrib, ih]
    congr 1
    simp

/-! Claim theorems. -/

/-- C1 (amended): for `int64` values `v` and `r`, as long as
`max v r < int64Max` (so the increment does not wrap), `Update r v`
returns `max v r + 1`, and in particular never decreases the counter,
negative `r` included.  At `v = int64Max` the increment wraps and both
statements fail, see the counterexample. -/
theorem C1_merge_max_succ (v r : Int) (hv : int64Min ≤ v)
    (hr : int64Min ≤ r) (h : max v r < int64Max) :
    Update r v = max v r + 1 ∧ v < Update r v := by
  by_cases hc : r > v
  · rw [max_eq_right (le_of_lt hc)] at h ⊢
    rw [Update, if_pos hc, wrap64_eq_self (by omega) (by omega)]
    exact ⟨rfl, by omega⟩
  · have hle : r ≤ v := not_lt.mp hc
    rw [max_eq_left hle] at h ⊢
    rw [Update, if_neg hc, wrap64_eq_self (by omega) (by omega)]
    exact ⟨rfl, by omega⟩

/-- Witness for C1: the three concrete cases of the claim. -/
theorem C1_merge_max_succ_witness :
    (Update 5 0 = max 0 5 + 1 ∧ (0 : Int) < Update 5 0) ∧
    (Update 3 6 = max 6 3 + 1 ∧ (6 : Int) < Update 3 6) ∧
    (Update 7 7 = max 7 7 + 1 ∧ (7 : Int) < Update 7 7) :=
  ⟨C1_merge_max_succ 0 5 (by decide) (by decide) (by decide),
   C1_merge_max_succ 6 3 (by decide) (by decide) (by decide),
   C1_merge_max_succ 7 7 (by decide) (by decide) (by decide)⟩

/-- Counterexample to C1 as stated: at the reachable state
`v = int64Max` (one `Update (int64Max - 1)` away from a fresh clock),
merging the negative value `r = -1` wraps: the result is not
`max v r + 1` and the counter decreases. -/
theorem C1_merge_overflow_cex :
    Update (-1) int64Max ≠ max int64Max (-1) + 1 ∧
    Update (-1) int64Max < int64Max := by
  constructor <;> decide

/-- C2 (amended): the clock starts at 0, and on any overflow-free run
every call strictly increases the stored value, each returned value is
strictly greater than every earlier returned value (and than the
initial 0), and the final `GetTime` equals the last returned value.
Without the overflow-freedom hypothesis the claim fails, see the
counterexample. -/
theorem C2_monotonic_lifetime (ops : List ClockOp)
    (h : clockRunSafe NewLamportClock ops = true) :
    NewLamportClock = 0 ∧
    List.Pairwise (· < ·)
      (NewLamportClock :: (clockRun NewLamportClock ops).2) ∧
    GetTime (clockRun NewLamportClock ops).1
      = ((clockRun NewLamportClock ops).2).getLastD NewLamportClock := by
  have hspec := clockRun_spec ops NewLamportClock (by decide) h
  exact ⟨rfl, hspec.1, hspec.2⟩

/-- Witness for C2: a concrete tick/merge/tick run. -/
theorem C2_monotonic_lifetime_witness :
    clockRunSafe NewLamportClock
        [ClockOp.tick, ClockOp.update 5, ClockOp.tick] = true ∧
    (NewLamportClock = 0 ∧
      List.Pairwise (· < ·) (NewLamportClock ::
        (clockRun NewLamportClock
          [ClockOp.tick, ClockOp.update 5, ClockOp.tick]).2) ∧
      GetTime (clockRun NewLamportClock
          [ClockOp.tick, ClockOp.update 5, ClockOp.tick]).1
        = ((clockRun NewLamportClock
            [ClockOp.tick, ClockOp.update 5, ClockOp.tick]).2).getLastD
            NewLamportClock) :=
  ⟨by decide, C2_monotonic_lifetime _ (by decide)⟩

/-- Counterexample to C2 as stated: merging `int64Max - 1` and then
ticking wraps the counter to `int64Min`, so the second call decreases
the stored value and the returned values are not increasing. -/
theorem C2_overflow_cex :
    (clockRun NewLamportClock
        [ClockOp.update 9223372036854775806, ClockOp.tick]).2
      = [int64Max, int64Min] ∧
    ¬ List.Pairwise (· < ·) (NewLamportClock ::
        (clockRun NewLamportClock
          [ClockOp.update 9223372036854775806, ClockOp.tick]).2) := by
  constructor <;> decide

/-- C3 (amended): on any overflow-free run from a fresh server, the
event log read in append order has strictly increasing timestamps
(pairwise, hence also adjacent).  Without overflow-freedom the claim
fails, see the counterexample. -/
theorem C3_log_strictly_increasing (ops : List ServerOp)
    (h : serverRunSafe NewServer ops = true) :
    ((serverRun NewServer ops).events.map (·.Timestamp)).Pairwise (· < ·) := by
  obtain ⟨tail, ht, hpw, _⟩ := serverRun_log_spec ops NewServer (by decide) h
  rw [ht, show NewServer.events = [] from rfl, List.nil_append]
  exact List.pairwise_map.mpr hpw

/-- Witness for C3: a concrete message/local run. -/
theorem C3_log_strictly_increasing_witness :
    serverRunSafe NewServer
        [ServerOp.messageOp 5 "m1" 0, ServerOp.localOp "e1" "m2" 1] = true ∧
    ((serverRun NewServer
        [ServerOp.messageOp 5 "m1" 0,
          ServerOp.localOp "e1" "m2" 1]).events.map (·.Timestamp)).Pairwise
      (· < ·) :=
  ⟨by decide, C3_log_strictly_increasing _ (by decide)⟩

/-- Counterexample to C3 as stated: a message carrying
`int64Max - 1` followed by one local event gives log timestamps
`[int64Max, int64Min]`, which are not increasing. -/
theorem C3_overflow_cex :
    ¬ ((serverRun NewServer
        [ServerOp.messageOp 9223372036854775806 "a" 0,
          ServerOp.localOp "b" "c" 0]).events.map (·.Timestamp)).Pairwise
      (· < ·) := by
  decide

/-- C4 (amended): for non-negative received `r` and any `int64` prior
value `v`, as long as `max v r < int64Max` the value returned by
`Update r` strictly exceeds both `v` and `r`.  For `r` at the top of
the 64-bit range the increment wraps and the conclusion fails, see the
counterexample. -/
theorem C4_receive_after_send (v r : Int) (hv : int64Min ≤ v)
    (_hr : 0 ≤ r) (h : max v r < int64Max) :
    v < Update r v ∧ r < Update r v := by
  by_cases hc : r > v
  · rw [max_eq_right (le_of_lt hc)] at h
    rw [Update, if_pos hc, wrap64_eq_self (by omega) (by omega)]
    omega
  · have hle : r ≤ v := not_lt.mp hc
    rw [max_eq_left hle] at h
    rw [Update, if_neg hc, wrap64_eq_self (by omega) (by omega)]
    omega

/-- Witness for C4: a concrete merge strictly above both inputs. -/
theorem C4_receive_after_send_witness :
    (0 : Int) < Update 5 0 ∧ (5 : Int) < Update 5 0 :=
  C4_receive_after_send 0 5 (by decide) (by decide) (by decide)

/-- Counterexample to C4 as stated: receiving the non-negative value
`int64Max` at a fresh clock wraps the counter to `int64Min`, which does
not exceed the received value. -/
theorem C4_overflow_cex :
    (0 : Int) ≤ int64Max ∧ Update int64Max 0 = int64Min ∧
      ¬ int64Max < Update int64Max 0 := by
  refine ⟨by decide, by decide, by decide⟩

/-- C5: the scenario recordLocal, recordLocal, recordMessage 5,
recordLocal, recordMessage 4 from a fresh server yields logical times
1, 2, 6, 7, 8 and a final `GetTime` of 8, whatever ids, labels and wall
times are supplied. -/
theorem C5_scenario (i1 i2 i3 m1 m2 m3 m4 m5 : String)
    (w1 w2 w3 w4 w5 : Nat) :
    ((serverRun NewServer
        [ServerOp.localOp i1 m1 w1, ServerOp.localOp i2 m2 w2,
          ServerOp.messageOp 5 m3 w3, ServerOp.localOp i3 m4 w4,
          ServerOp.messageOp 4 m5 w5]).events.map (·.Timestamp))
      = [1, 2, 6, 7, 8] ∧
    GetTime (serverRun NewServer
        [ServerOp.localOp i1 m1 w1, ServerOp.localOp i2 m2 w2,
          ServerOp.messageOp 5 m3 w3, ServerOp.localOp i3 m4 w4,
          ServerOp.messageOp 4 m5 w5]).clock = 8 := by
  constructor
  · simp [serverRun, serverStep, logEvent, processMessage, NewServer,
      NewLamportClock]
    norm_num [Tick, Update, wrap64]
  · simp [serverRun, serverStep, logEvent, processMessage, NewServer,
      NewLamportClock, GetTime]
    norm_num [Tick, Update, wrap64]

/-- Witness for C5: the scenario with concrete ids, labels and wall
times. -/
theorem C5_scenario_witness :
    ((serverRun NewServer
        [ServerOp.localOp "e1" "a" 10, ServerOp.localOp "e2" "b" 11,
          ServerOp.messageOp 5 "c" 12, ServerOp.localOp "e3" "d" 13,
          ServerOp.messageOp 4 "e" 14]).events.map (·.Timestamp))
      = [1, 2, 6, 7, 8] ∧
    GetTime (serverRun NewServer
        [ServerOp.localOp "e1" "a" 10, ServerOp.localOp "e2" "b" 11,
          ServerOp.messageOp 5 "c" 12, ServerOp.localOp "e3" "d" 13,
          ServerOp.messageOp 4 "e" 14]).clock = 8 :=
  C5_scenario "e1" "e2" "e3" "a" "b" "c" "d" "e" 10 11 12 13 14

/-- C6: a snapshot returns the current clock value, the full log in
append order and its length, and its event sequence is a frozen value:
the entries it returned stay unchanged in place under any sequence of
later recordings, which only ever append. -/
theorem C6_snapshot_frozen (s : Server) (ops : List ServerOp) :
    handleGetEvents s = (GetTime s.clock, s.events, s.events.length) ∧
    (serverRun s ops).events.take s.events.length = s.events := by
  refine ⟨rfl, ?_⟩
  obtain ⟨tail, ht⟩ := serverRun_appends ops s
  rw [ht, List.take_left]

/-- Witness for C6: a concrete snapshot of a one-event server is
untouched by a later recording. -/
theorem C6_snapshot_frozen_witness :
    handleGetEvents (Server.mk 1 [Event.mk "e1" "a" 1 0])
      = (GetTime 1, [Event.mk "e1" "a" 1 0], 1) ∧
    (serverRun (Server.mk 1 [Event.mk "e1" "a" 1 0])
        [ServerOp.localOp "e2" "b" 1]).events.take 1
      = [Event.mk "e1" "a" 1 0] :=
  C6_snapshot_frozen (Server.mk 1 [Event.mk "e1" "a" 1 0])
    [ServerOp.localOp "e2" "b" 1]

/-- C7 (amended): `Tick` increments the counter by exactly 1 and
returns the new value for every `int64` state strictly below
`int64Max`; at `int64Max` the increment wraps, see the counterexample.
`Tick` is total: it has no error conditions. -/
theorem C7_tick_increments (ts : Int) (h1 : int64Min ≤ ts)
    (h2 : ts < int64Max) : Tick ts = ts + 1 := by
  rw [Tick, wrap64_eq_self (by omega) (by omega)]

/-- Witness for C7: ticking a fresh clock returns 1. -/
theorem C7_tick_increments_witness : Tick 0 = 0 + 1 :=
  C7_tick_increments 0 (by decide) (by decide)

/-- Counterexample to C7 as stated: at the reachable state `int64Max`
the tick wraps to `int64Min` instead of adding 1. -/
theorem C7_overflow_cex :
    Tick int64Max = int64Min ∧ Tick int64Max ≠ int64Max + 1 := by
  constructor <;> decide

/-- C8: `handleReceiveMessage` rejects non-POST methods with 405, and
POST requests with a missing (empty) timestamp or message parameter, or
an unparseable timestamp, with 400 Bad Request — in every rejection the
server (clock and log) is returned unchanged, so the core is never
invoked; when both parameters are present and the timestamp parses as
an `int64`, the message is processed and the resulting event
returned. -/
theorem C8_reject_malformed (s : Server) (method tsStr msg : String)
    (w : Nat) :
    (method ≠ "POST" →
      handleReceiveMessage s method tsStr msg w
        = (.methodNotAllowed, s)) ∧
    (tsStr = "" ∨ msg = "" →
      handleReceiveMessage s "POST" tsStr msg w
        = (.badRequest "Missing timestamp or message parameter", s)) ∧
    (¬ (tsStr = "" ∨ msg = "") → parseInt64 tsStr = none →
      handleReceiveMessage s "POST" tsStr msg w
        = (.badRequest "Invalid timestamp", s)) ∧
    (∀ t : Int, ¬ (tsStr = "" ∨ msg = "") → parseInt64 tsStr = some t →
      handleReceiveMessage s "POST" tsStr msg w
        = (.okEvent (processMessage s t msg w).1,
            (processMessage s t msg w).2)) := by
  refine ⟨?_, ?_, ?_, ?_⟩
  · intro hm
    rw [handleReceiveMessage, if_pos hm]
  · intro hmiss
    rw [handleReceiveMessage, if_neg (by simp), if_pos hmiss]
  · intro hmiss hparse
    rw [handleReceiveMessage, if_neg (by simp), if_neg hmiss, hparse]
  · intro t hmiss hparse
    rw [handleReceiveMessage, if_neg (by simp), if_neg hmiss, hparse]

/-- Witness for C8: concrete rejections leave the server untouched and
a concrete well-formed request is processed. -/
theorem C8_reject_malformed_witness :
    handleReceiveMessage NewServer "POST" "" "hi" 0
      = (.badRequest "Missing timestamp or message parameter", NewServer) ∧
    handleReceiveMessage NewServer "POST" "abc" "hi" 0
      = (.badRequest "Invalid timestamp", NewServer) ∧
    handleReceiveMessage NewServer "POST" "5" "hi" 0
      = (.okEvent (processMessage NewServer 5 "hi" 0).1,
          (processMessage NewServer 5 "hi" 0).2) ∧
    handleReceiveMessage NewServer "GET" "5" "hi" 0
      = (.methodNotAllowed, NewServer) :=
  ⟨(C8_reject_malformed NewServer "POST" "" "hi" 0).2.1 (Or.inl rfl),
   (C8_reject_malformed NewServer "POST" "abc" "hi" 0).2.2.1
     (by decide) (by decide),
   (C8_reject_malformed NewServer "POST" "5" "hi" 0).2.2.2 5
     (by decide) (by decide),
   (C8_reject_malformed NewServer "GET" "5" "hi" 0).1 (by decide)⟩

/-- C9 (amended): on any overflow-free run from a fresh server the
events produced by `processMessage` calls have pairwise distinct ids,
because the id is "msg-" followed by the new logical time and the
merge results are strictly increasing.  With wraparound two merges can
return the same logical time and the ids collide, see the
counterexample. -/
theorem C9_msg_ids_unique (ops : List ServerOp)
    (h : serverRunSafe NewServer ops = true) :
    (msgEvents NewServer ops).Pairwise (fun a b => a.ID ≠ b.ID) := by
  obtain ⟨hpw, hmem⟩ := msgEvents_spec ops NewServer (by decide) h
  refine List.Pairwise.imp_of_mem ?_ hpw
  intro a b ha hb hlt hid
  obtain ⟨hpa, hida⟩ := hmem a ha
  obtain ⟨hpb, hidb⟩ := hmem b hb
  rw [hida, hidb] at hid
  rw [show NewServer.clock = 0 from rfl] at hpa hpb
  have := msgId_inj_pos hpa hpb hid
  omega

/-- Witness for C9: two concrete merges get distinct ids. -/
theorem C9_msg_ids_unique_witness :
    serverRunSafe NewServer
        [ServerOp.messageOp 5 "a" 0, ServerOp.messageOp 3 "b" 1] = true ∧
    (msgEvents NewServer
        [ServerOp.messageOp 5 "a" 0, ServerOp.messageOp 3 "b" 1]).Pairwise
      (fun a b => a.ID ≠ b.ID) :=
  ⟨by decide, C9_msg_ids_unique _ (by decide)⟩

/-- Counterexample to C9 as stated: merging 5, then `int64Max` (which
wraps the clock to `int64Min`), then 5 again produces two events with
the same id "msg-6". -/
theorem C9_overflow_cex :
    ((msgEvents NewServer
        [ServerOp.messageOp 5 "a" 0, ServerOp.messageOp int64Max "b" 0,
          ServerOp.messageOp 5 "c" 0]).map (·.ID))
      = ["msg-6", "msg--9223372036854775808", "msg-6"] ∧
    ¬ (msgEvents NewServer
        [ServerOp.messageOp 5 "a" 0, ServerOp.messageOp int64Max "b" 0,
          ServerOp.messageOp 5 "c" 0]).Pairwise
      (fun a b => a.ID ≠ b.ID) := by
  constructor <;> decide

/-- C10 (amended): with each mutex-protected tick modelled as one
atomic step, any interleaving of `N` callers each performing `K` ticks
on a fresh clock (any schedule whose per-caller counts are all `K`)
returns pairwise distinct values and leaves the counter at `N * K`,
provided `N * K ≤ int64Max`; for runs long enough to wrap the final
value is wrong, see the counterexample. -/
theorem C10_concurrent_ticks (N K : Nat) (sched : List (Fin N))
    (hcount : ∀ i : Fin N, sched.count i = K)
    (hbound : (N : Int) * K ≤ int64Max) :
    (tickSchedule NewLamportClock sched).2.Nodup ∧
    (tickSchedule NewLamportClock sched).2.length = N * K ∧
    (tickSchedule NewLamportClock sched).1 = (N : Int) * K := by
  have hlen : sched.length = N * K := by
    rw [← length_eq_sum_count sched]
    simp [hcount, Finset.sum_const, Finset.card_univ, mul_comm]
  have hlen' : ((sched.length : Nat) : Int) = (N : Int) * K := by
    rw [hlen]
    push_cast
    ring
  obtain ⟨hpw, hmem, hfin, hrlen⟩ :=
    tickSchedule_spec sched NewLamportClock (by decide)
      (by rw [show NewLamportClock = 0 from rfl, hlen']; omega)
  refine ⟨?_, ?_, ?_⟩
  · exact hpw.imp (fun hab => ne_of_lt hab)
  · rw [hrlen, hlen]
  · rw [hfin, show NewLamportClock = 0 from rfl, hlen']
    ring

/-- Witness for C10: two callers with one tick each, in one concrete
interleaving. -/
theorem C10_concurrent_ticks_witness :
    (∀ i : Fin 2, ([0, 1] : List (Fin 2)).count i = 1) ∧
    ((tickSchedule NewLamportClock ([0, 1] : List (Fin 2))).2.Nodup ∧
      (tickSchedule NewLamportClock ([0, 1] : List (Fin 2))).2.length
        = 2 * 1 ∧
      (tickSchedule NewLamportClock ([0, 1] : List (Fin 2))).1
        = ((2 : Nat) : Int) * ((1 : Nat) : Int)) :=
  ⟨by decide, C10_concurrent_ticks 2 1 [0, 1] (by decide) (by decide)⟩

/-- Counterexample to C10 as stated: a single caller issuing 2^63
ticks wraps the counter, so the final value is `int64Min` rather than
`N * K = 2^63`. -/
theorem C10_overflow_cex :
    (tickSchedule NewLamportClock
        (List.replicate 9223372036854775808 (0 : Fin 1))).1 = int64Min ∧
    int64Min ≠ (1 : Int) * 9223372036854775808 := by
  constructor
  · rw [tickSchedule_final _ _ (by decide) (by decide),
      List.length_replicate]
    decide
  · decide

end Lamport
